import Mathlib

/-!
Verification of the cachetools memoizing-decorator core: the key-generation
layer (`src/cachetools/keys.py`) and the decorator/adapter
(`src/cachetools/func.py`), shallowly embedded in Lean 4.

Python values that can appear as call arguments are modelled by `PyVal`;
floats are restricted to integral values (enough to express `1 == 1.0` with
`type(1) != type(1.0)`), and lists stand for unhashable values.  Cache keys
are lists of `KeyElem`: an element is an argument value, a runtime type
object (typed keys), or the keyword marker `_kwmark` (the `_HashedTuple`
class object).  Python `==` is `pyEq`/`keyEq`; Python `hash` is
`pyHash`/`keyHash`, returning `none` where CPython raises `TypeError`.
-/

namespace Cachetools

/-- Runtime types of modelled Python argument values (`type(v)`). -/
inductive PyType where
  | intT | floatT | boolT | strT | noneT | listT
  deriving DecidableEq, Repr

/-- Modelled Python argument values.  `floatV n` is the float with integral
value `n`; `listV` is an (unhashable) list. -/
inductive PyVal where
  | intV : Int → PyVal
  | floatV : Int → PyVal
  | boolV : Bool → PyVal
  | strV : String → PyVal
  | noneV : PyVal
  | listV : List PyVal → PyVal

/-- `type(v)` for modelled values. -/
def pyType : PyVal → PyType
  | .intV _ => .intT
  | .floatV _ => .floatT
  | .boolV _ => .boolT
  | .strV _ => .strT
  | .noneV => .noneT
  | .listV _ => .listT

mutual

/-- Python `==` on modelled values: numbers (int/float/bool) compare by
numeric value across types, lists compare elementwise. -/
def pyEq : PyVal → PyVal → Bool
  | .intV n, .intV m => n == m
  | .intV n, .floatV m => n == m
  | .intV n, .boolV b => n == (if b then 1 else 0)
  | .floatV n, .intV m => n == m
  | .floatV n, .floatV m => n == m
  | .floatV n, .boolV b => n == (if b then 1 else 0)
  | .boolV a, .intV m => (if a then (1 : Int) else 0) == m
  | .boolV a, .floatV m => (if a then (1 : Int) else 0) == m
  | .boolV a, .boolV b => a == b
  | .strV s, .strV t => s == t
  | .noneV, .noneV => true
  | .listV xs, .listV ys => pyEqList xs ys
  | _, _ => false

/-- Elementwise Python `==` on lists. -/
def pyEqList : List PyVal → List PyVal → Bool
  | [], [] => true
  | x :: xs, y :: ys => pyEq x y && pyEqList xs ys
  | _, _ => false

end

/-- Deterministic model of Python's string hash. -/
def strHash (s : String) : Int :=
  s.foldl (fun a c => a * 31 + (c.toNat : Int)) 7

/-- Python `hash(v)`: `none` models a raised `TypeError` (unhashable value,
e.g. a list).  Numerically equal numbers hash alike, as in CPython. -/
def pyHash : PyVal → Option Int
  | .intV n => some n
  | .floatV n => some n
  | .boolV b => some (if b then 1 else 0)
  | .strV s => some (strHash s)
  | .noneV => some 271828
  | .listV _ => none

/-- One element of a `_HashedTuple` cache key: an argument value, a runtime
type object (for typed keys), or the `_kwmark` marker (the `_HashedTuple`
class object itself, from `keys.py` line 49). -/
inductive KeyElem where
  | val : PyVal → KeyElem
  | ty : PyType → KeyElem
  | kwmark : KeyElem

/-- A cache key: the element sequence of a `_HashedTuple`. -/
abbrev Key := List KeyElem

/-- Python `==` on key elements: a value never equals a type object or the
marker class. -/
def elemEq : KeyElem → KeyElem → Bool
  | .val v, .val w => pyEq v w
  | .ty s, .ty t => s == t
  | .kwmark, .kwmark => true
  | _, _ => false

/-- Distinct hash codes for the modelled type objects. -/
def typeCode : PyType → Int
  | .intT => 1001
  | .floatT => 1002
  | .boolT => 1003
  | .strT => 1004
  | .noneT => 1005
  | .listT => 1006

/-- Python `hash` of one key element (type objects and the marker are always
hashable). -/
def elemHash : KeyElem → Option Int
  | .val v => pyHash v
  | .ty t => some (typeCode t)
  | .kwmark => some 997

/-- Python `==` on keys (`tuple.__eq__`): equal length and elementwise. -/
def keyEq : Key → Key → Bool
  | [], [] => true
  | x :: xs, y :: ys => elemEq x y && keyEq xs ys
  | _, _ => false

/-- One combining step of the tuple hash: propagates failure, mixes in the
next element's hash. -/
def hashStep (acc : Option Int) (e : KeyElem) : Option Int :=
  acc.bind fun a => (elemHash e).map fun h => a * 1000003 + h

/-- Python `hash` of a key (`tuple.__hash__`): combines element hashes;
`none` (raise) as soon as any element is unhashable. -/
def keyHash (k : Key) : Option Int :=
  k.foldl hashStep (some 2166136261)

/-- Name order on keyword items: Python's tuple comparison inside
`sorted(kwargs.items())` decides on the (distinct) names and never reaches
the values. -/
def kwLE (a b : String × PyVal) : Prop := a.1 ≤ b.1

instance : DecidableRel kwLE := fun a b => inferInstanceAs (Decidable (a.1 ≤ b.1))

instance : IsTotal (String × PyVal) kwLE := ⟨fun a b => le_total a.1 b.1⟩

instance : IsTrans (String × PyVal) kwLE := ⟨fun _ _ _ => le_trans⟩

/-- Strict name order, used to show a sort of distinct names is unique. -/
def kwLT (a b : String × PyVal) : Prop := a.1 < b.1

instance : IsAntisymm (String × PyVal) kwLT :=
  ⟨fun _ _ h1 h2 => absurd h2 (lt_asymm h1)⟩

/-- `sorted(kwargs.items())` from `keys.py`: keyword items sorted by name.
The items come from a dict, so names are distinct and Python's tuple
comparison never reaches the values. -/
def sortKwargs (kwargs : List (String × PyVal)) : List (String × PyVal) :=
  kwargs.insertionSort kwLE

/-- `sum(sorted(kwargs.items()), _kwmark)` flattens each `(name, value)` item
into the key by tuple concatenation: this is the per-item part. -/
def kwFlatten : List (String × PyVal) → Key
  | [] => []
  | (n, v) :: rest => .val (.strV n) :: .val v :: kwFlatten rest

/-- `hashkey(*args, **kwargs)` from `keys.py` lines 52-57: positional values,
then — only if keyword arguments are present — the `_kwmark` marker followed
by the flattened name-sorted keyword items. -/
def hashkey (args : List PyVal) (kwargs : List (String × PyVal)) : Key :=
  if kwargs.isEmpty then
    args.map KeyElem.val
  else
    args.map KeyElem.val ++ (KeyElem.kwmark :: kwFlatten (sortKwargs kwargs))

/-- `typedkey(*args, **kwargs)` from `keys.py` lines 65-72: the runtime type
of every positional value, then of every keyword value (sorted by name),
prepended to the `hashkey` key. -/
def typedkey (args : List PyVal) (kwargs : List (String × PyVal)) : Key :=
  (args.map fun v => KeyElem.ty (pyType v))
    ++ ((sortKwargs kwargs).map fun p => KeyElem.ty (pyType p.2))
    ++ hashkey args kwargs

/-- A `_HashedTuple` instance (`keys.py` lines 11-46): the tuple's elements
plus the mutable `__hashvalue` slot, `none` until the first successful hash. -/
structure HashedTuple where
  elems : Key
  hashvalue : Option Int

/-- `_HashedTuple.__hash__` (`keys.py` lines 21-25) as a state transformer:
returns the hash result (`none` models a raised `TypeError`), the instance
state afterwards, and how many times the underlying `tuple.__hash__`
computation ran during this request (0 or 1). -/
def htHash (t : HashedTuple) : Option Int × HashedTuple × Nat :=
  match t.hashvalue with
  | some h => (some h, t, 0)
  | none =>
    match keyHash t.elems with
    | some h => (some h, { t with hashvalue := some h }, 1)
    | none => (none, t, 1)

/-- `n` successive hash requests on one `_HashedTuple` instance: final state,
total number of underlying hash computations, and the per-request results. -/
def htHashN : HashedTuple → Nat → HashedTuple × Nat × List (Option Int)
  | t, 0 => (t, 0, [])
  | t, n + 1 =>
    let (r, t1, c) := htHash t
    let (tf, ctot, rs) := htHashN t1 n
    (tf, c + ctot, r :: rs)

/-- Errors a modelled Python call can raise.  `typeError` is the unhashable-
value error; `valueError` is the "value too large" rejection from a cache
container; `other n` stands for any further distinct exception. -/
inductive PyErr where
  | typeError
  | valueError
  | keyError
  | other : Nat → PyErr
  deriving DecidableEq, Repr

/-- Modelled from the spec: the external cache-container interface of §6 —
`lookup` (fails with NotFound, i.e. `none`), `insert` (may fail, in
particular with the CapacityError `valueError`), `size` (current entry
count) and `clear` (removes all entries, so a cleared container has size
zero).  The containers themselves (`FIFOCache` etc.) are outside the core
sources. -/
structure ContainerOps (C : Type) where
  lookup : C → Key → Option PyVal
  insert : C → Key → PyVal → Except PyErr C
  size : C → Nat
  clear : C → C
  size_clear : ∀ c, size (clear c) = 0

/-- Per-decorated-function mutable state: the bound container and the
`hits`/`misses` counters of `_make_decorator`. -/
structure AdapterState (C : Type) where
  cache : C
  hits : Nat
  misses : Nat

/-- Outcome of one call to the wrapper: the returned value or raised error,
the state afterwards, and how many times the wrapped function was invoked
during the call (0 or 1). -/
structure CallResult (C : Type) where
  result : Except PyErr PyVal
  state : AdapterState C
  funcCalls : Nat

/-- The `wrapper` closure of `func.py` lines 36-50.  `keyfn` is the selected
key generator (`hashkey` or `typedkey`); `func` is the wrapped function,
which may raise.  `cache[k]` first hashes the key: when the key is
unhashable this raises `TypeError` before any container interaction or
counter update; a `KeyError` miss (`lookup = none`) increments `misses`,
then the function runs, and the insertion swallows exactly `ValueError`. -/
def wrapper (ops : ContainerOps C)
    (keyfn : List PyVal → List (String × PyVal) → Key)
    (func : List PyVal → List (String × PyVal) → Except PyErr PyVal)
    (st : AdapterState C) (args : List PyVal) (kwargs : List (String × PyVal)) :
    CallResult C :=
  let k := keyfn args kwargs
  match keyHash k with
  | none => ⟨.error .typeError, st, 0⟩
  | some _ =>
    match ops.lookup st.cache k with
    | some result => ⟨.ok result, ⟨st.cache, st.hits + 1, st.misses⟩, 0⟩
    | none =>
      match func args kwargs with
      | .error e => ⟨.error e, ⟨st.cache, st.hits, st.misses + 1⟩, 1⟩
      | .ok result =>
        match ops.insert st.cache k result with
        | .ok c2 => ⟨.ok result, ⟨c2, st.hits, st.misses + 1⟩, 1⟩
        | .error .valueError => ⟨.ok result, ⟨st.cache, st.hits, st.misses + 1⟩, 1⟩
        | .error e => ⟨.error e, ⟨st.cache, st.hits, st.misses + 1⟩, 1⟩

/-- The `CacheInfo` named tuple of `func.py`. -/
structure CacheInfo where
  hits : Nat
  misses : Nat
  maxsize : Nat
  currsize : Nat
  deriving DecidableEq, Repr

/-- `cache_info()` from `func.py` lines 52-53: counters from the closure,
`currsize` read live from the container, `maxsize` fixed at construction. -/
def cache_info (ops : ContainerOps C) (maxsize : Nat) (st : AdapterState C) :
    CacheInfo :=
  ⟨st.hits, st.misses, maxsize, ops.size st.cache⟩

/-- `cache_clear()` from `func.py` lines 55-58: empties the container and
zeroes both counters. -/
def cache_clear (ops : ContainerOps C) (st : AdapterState C) : AdapterState C :=
  ⟨ops.clear st.cache, 0, 0⟩

/-- A sequence of wrapper calls threaded through the adapter state. -/
def runCalls (ops : ContainerOps C)
    (keyfn : List PyVal → List (String × PyVal) → Key)
    (func : List PyVal → List (String × PyVal) → Except PyErr PyVal) :
    AdapterState C → List (List PyVal × List (String × PyVal)) → AdapterState C
  | st, [] => st
  | st, (a, kw) :: rest =>
    runCalls ops keyfn func (wrapper ops keyfn func st a kw).state rest

/-- Modelled from the spec: a concrete capacity-bounded associative container
(FIFO eviction) satisfying the §6 interface, used to instantiate the adapter
theorems.  Keys compare by Python `==` (`keyEq`); an insertion whose single
entry cannot fit even in an empty container (capacity zero here, since every
entry has unit cost) is rejected with `valueError`, evicting nothing. -/
def fifoModel (maxsize : Nat) : ContainerOps (List (Key × PyVal)) where
  lookup c k := (c.find? fun p => keyEq p.1 k).map Prod.snd
  insert c k v :=
    if maxsize = 0 then
      .error .valueError
    else if (c.find? fun p => keyEq p.1 k).isSome then
      .ok (c.map fun p => if keyEq p.1 k then (p.1, v) else p)
    else if maxsize ≤ c.length then
      .ok (c.drop 1 ++ [(k, v)])
    else
      .ok (c ++ [(k, v)])
  size c := c.length
  clear _ := []
  size_clear _ := rfl

/-! ## Theorems -/

/-- C1: For every decorated function and every call whose key is present in
the container, the wrapper increments the hit counter by one, returns the
stored value, does not invoke the wrapped function, and leaves the miss
counter (and the container) unchanged. -/
theorem wrapper_hit {C : Type} (ops : ContainerOps C)
    (keyfn : List PyVal → List (String × PyVal) → Key)
    (func : List PyVal → List (String × PyVal) → Except PyErr PyVal)
    (st : AdapterState C) (args : List PyVal) (kwargs : List (String × PyVal))
    (v : PyVal) (h : Int)
    (hhash : keyHash (keyfn args kwargs) = some h)
    (hlook : ops.lookup st.cache (keyfn args kwargs) = some v) :
    wrapper ops keyfn func st args kwargs =
      ⟨.ok v, ⟨st.cache, st.hits + 1, st.misses⟩, 0⟩ := by
  simp [wrapper, hhash, hlook]

/-- Witness for C1: a concrete hit on a FIFO-model container. -/
theorem wrapper_hit_witness :
    wrapper (fifoModel 2) hashkey (fun _ _ => .ok .noneV)
        ⟨[([KeyElem.val (PyVal.intV 2)], PyVal.intV 4)], 5, 7⟩ [PyVal.intV 2] [] =
      ⟨.ok (PyVal.intV 4), ⟨[([KeyElem.val (PyVal.intV 2)], PyVal.intV 4)], 6, 7⟩, 0⟩ :=
  wrapper_hit _ _ _ _ _ _ _ _ rfl rfl

/-- C7: For every call that misses and whose wrapped-function invocation
raises, the failure propagates unmodified, exactly one miss is recorded, the
hit counter is unchanged, and the container is unchanged. -/
theorem wrapper_func_error {C : Type} (ops : ContainerOps C)
    (keyfn : List PyVal → List (String × PyVal) → Key)
    (func : List PyVal → List (String × PyVal) → Except PyErr PyVal)
    (st : AdapterState C) (args : List PyVal) (kwargs : List (String × PyVal))
    (e : PyErr) (h : Int)
    (hhash : keyHash (keyfn args kwargs) = some h)
    (hlook : ops.lookup st.cache (keyfn args kwargs) = none)
    (hfunc : func args kwargs = .error e) :
    wrapper ops keyfn func st args kwargs =
      ⟨.error e, ⟨st.cache, st.hits, st.misses + 1⟩, 1⟩ := by
  simp [wrapper, hhash, hlook, hfunc]

/-- Witness for C7: a wrapped function that raises on a cold FIFO-model
container. -/
theorem wrapper_func_error_witness :
    wrapper (fifoModel 2) hashkey (fun _ _ => .error (.other 3))
        ⟨[], 5, 7⟩ [PyVal.intV 2] [] =
      ⟨.error (.other 3), ⟨[], 5, 8⟩, 1⟩ :=
  wrapper_func_error _ _ _ _ _ _ _ _ rfl rfl rfl

/-- C8: For every miss in which inserting the computed result fails with the
oversized-value error (`valueError`), the wrapper swallows the error, still
returns the computed result, and retains nothing (the container, hence
`currsize`, is unchanged); every other insertion failure propagates. -/
theorem wrapper_insert_reject {C : Type} (ops : ContainerOps C)
    (keyfn : List PyVal → List (String × PyVal) → Key)
    (func : List PyVal → List (String × PyVal) → Except PyErr PyVal)
    (st : AdapterState C) (args : List PyVal) (kwargs : List (String × PyVal))
    (r : PyVal) (h : Int)
    (hhash : keyHash (keyfn args kwargs) = some h)
    (hlook : ops.lookup st.cache (keyfn args kwargs) = none)
    (hfunc : func args kwargs = .ok r) :
    (ops.insert st.cache (keyfn args kwargs) r = .error .valueError →
      wrapper ops keyfn func st args kwargs =
        ⟨.ok r, ⟨st.cache, st.hits, st.misses + 1⟩, 1⟩ ∧
      ops.size (wrapper ops keyfn func st args kwargs).state.cache =
        ops.size st.cache) ∧
    (∀ e : PyErr, e ≠ .valueError →
      ops.insert st.cache (keyfn args kwargs) r = .error e →
      wrapper ops keyfn func st args kwargs =
        ⟨.error e, ⟨st.cache, st.hits, st.misses + 1⟩, 1⟩) := by
  constructor
  · intro hins
    constructor
    · simp [wrapper, hhash, hlook, hfunc, hins]
    · simp [wrapper, hhash, hlook, hfunc, hins]
  · intro e he hins
    cases e with
    | valueError => exact absurd rfl he
    | typeError => simp [wrapper, hhash, hlook, hfunc, hins]
    | keyError => simp [wrapper, hhash, hlook, hfunc, hins]
    | other n => simp [wrapper, hhash, hlook, hfunc, hins]

/-- Witness for C8: a capacity-zero FIFO-model container rejects the entry
with `valueError`, yet the call still returns the computed result. -/
theorem wrapper_insert_reject_witness :
    wrapper (fifoModel 0) hashkey (fun _ _ => .ok (PyVal.intV 9))
        ⟨[], 5, 7⟩ [PyVal.intV 2] [] =
      ⟨.ok (PyVal.intV 9), ⟨[], 5, 8⟩, 1⟩ :=
  ((wrapper_insert_reject (fifoModel 0) hashkey (fun _ _ => .ok (PyVal.intV 9))
      ⟨[], 5, 7⟩ [PyVal.intV 2] [] (PyVal.intV 9) _ rfl rfl rfl).1 rfl).1

/-- Once the tuple-hash accumulator has failed it stays failed. -/
theorem foldl_hashStep_none (l : Key) : l.foldl hashStep none = none := by
  induction l with
  | nil => rfl
  | cons e l ih => simpa [hashStep] using ih

/-- A key containing an unhashable element has no hash, whatever the
accumulator. -/
theorem foldl_hashStep_elem_none (l : Key) :
    ∀ acc : Option Int, (∃ e ∈ l, elemHash e = none) → l.foldl hashStep acc = none := by
  induction l with
  | nil =>
    rintro acc ⟨e, he, -⟩
    cases he
  | cons x l ih =>
    rintro acc ⟨e, he, hn⟩
    rcases List.mem_cons.mp he with rfl | hm
    · have hx : hashStep acc e = none := by cases acc <;> simp [hashStep, hn]
      simpa [hx] using foldl_hashStep_none l
    · exact ih _ ⟨e, hm, hn⟩

/-- `tuple.__hash__` raises when any element is unhashable. -/
theorem keyHash_none_of_mem (k : Key) (e : KeyElem) (he : e ∈ k)
    (hn : elemHash e = none) : keyHash k = none :=
  foldl_hashStep_elem_none k _ ⟨e, he, hn⟩

/-- Each keyword item contributes its value to the flattened keyword part. -/
theorem mem_kwFlatten (l : List (String × PyVal)) (n : String) (v : PyVal)
    (h : (n, v) ∈ l) : KeyElem.val v ∈ kwFlatten l := by
  induction l with
  | nil => cases h
  | cons p rest ih =>
    rcases p with ⟨m, w⟩
    rcases List.mem_cons.mp h with h1 | h2
    · cases h1
      simp [kwFlatten]
    · exact List.mem_cons_of_mem _ (List.mem_cons_of_mem _ (ih h2))

/-- A positional argument's value appears in its `hashkey` key. -/
theorem mem_hashkey_of_arg (args : List PyVal) (kwargs : List (String × PyVal))
    (v : PyVal) (hv : v ∈ args) : KeyElem.val v ∈ hashkey args kwargs := by
  unfold hashkey
  split
  · exact List.mem_map_of_mem _ hv
  · exact List.mem_append_left _ (List.mem_map_of_mem _ hv)

/-- A keyword argument's value appears in its `hashkey` key. -/
theorem mem_hashkey_of_kwarg (args : List PyVal) (kwargs : List (String × PyVal))
    (n : String) (v : PyVal) (hv : (n, v) ∈ kwargs) :
    KeyElem.val v ∈ hashkey args kwargs := by
  have hne : kwargs.isEmpty = false := by
    cases kwargs with
    | nil => cases hv
    | cons p rest => rfl
  have hmem : (n, v) ∈ sortKwargs kwargs :=
    (List.perm_insertionSort _ kwargs).mem_iff.mpr hv
  unfold hashkey
  rw [hne]
  simp only [Bool.false_eq_true, if_false]
  exact List.mem_append_right _
    (List.mem_cons_of_mem _ (mem_kwFlatten _ _ _ hmem))

/-- An argument's value appears in its `typedkey` key as well. -/
theorem mem_typedkey (args : List PyVal) (kwargs : List (String × PyVal))
    (v : PyVal) (h : KeyElem.val v ∈ hashkey args kwargs) :
    KeyElem.val v ∈ typedkey args kwargs := by
  unfold typedkey
  exact List.mem_append_right _ h

/-- C6: For every call with an unhashable argument value (positional or
keyword), with untyped or typed key generation, the wrapper raises the
unhashable-value error (`TypeError` from hashing the freshly built key), the
error propagates uncaught, the container and both counters are untouched,
and the wrapped function is never invoked. -/
theorem wrapper_unhashable {C : Type} (ops : ContainerOps C)
    (func : List PyVal → List (String × PyVal) → Except PyErr PyVal)
    (st : AdapterState C) (args : List PyVal) (kwargs : List (String × PyVal))
    (v : PyVal) (hv : pyHash v = none)
    (hmem : v ∈ args ∨ ∃ n, (n, v) ∈ kwargs) :
    wrapper ops hashkey func st args kwargs = ⟨.error .typeError, st, 0⟩ ∧
    wrapper ops typedkey func st args kwargs = ⟨.error .typeError, st, 0⟩ := by
  have hmemk : KeyElem.val v ∈ hashkey args kwargs := by
    rcases hmem with h | ⟨n, h⟩
    · exact mem_hashkey_of_arg _ _ _ h
    · exact mem_hashkey_of_kwarg _ _ _ _ h
  have hn : elemHash (KeyElem.val v) = none := by simp [elemHash, hv]
  have h1 : keyHash (hashkey args kwargs) = none :=
    keyHash_none_of_mem _ _ hmemk hn
  have h2 : keyHash (typedkey args kwargs) = none :=
    keyHash_none_of_mem _ _ (mem_typedkey _ _ _ hmemk) hn
  exact ⟨by simp [wrapper, h1], by simp [wrapper, h2]⟩

/-- Witness for C6: passing a list (unhashable) raises without touching the
state. -/
theorem wrapper_unhashable_witness :
    wrapper (fifoModel 2) hashkey (fun _ _ => .ok .noneV)
        ⟨[], 5, 7⟩ [PyVal.listV []] [] =
      ⟨.error .typeError, ⟨[], 5, 7⟩, 0⟩ ∧
    wrapper (fifoModel 2) typedkey (fun _ _ => .ok .noneV)
        ⟨[], 5, 7⟩ [PyVal.listV []] [] =
      ⟨.error .typeError, ⟨[], 5, 7⟩, 0⟩ :=
  wrapper_unhashable _ _ _ _ _ (PyVal.listV []) rfl
    (Or.inl (List.mem_singleton.mpr rfl))

/-- C10: Every wrapper call whose key hashes successfully bumps exactly one
of the two counters by one and leaves the other unchanged; consequently over
any sequence of such calls `hits + misses` grows by exactly the number of
calls. -/
theorem wrapper_one_counter {C : Type} (ops : ContainerOps C)
    (keyfn : List PyVal → List (String × PyVal) → Key)
    (func : List PyVal → List (String × PyVal) → Except PyErr PyVal) :
    (∀ (st : AdapterState C) args kwargs (h : Int),
      keyHash (keyfn args kwargs) = some h →
      ((wrapper ops keyfn func st args kwargs).state.hits = st.hits + 1 ∧
        (wrapper ops keyfn func st args kwargs).state.misses = st.misses) ∨
      ((wrapper ops keyfn func st args kwargs).state.hits = st.hits ∧
        (wrapper ops keyfn func st args kwargs).state.misses = st.misses + 1)) ∧
    (∀ (st : AdapterState C) (calls : List (List PyVal × List (String × PyVal))),
      (∀ c ∈ calls, ∃ h : Int, keyHash (keyfn c.1 c.2) = some h) →
      (runCalls ops keyfn func st calls).hits + (runCalls ops keyfn func st calls).misses
        = st.hits + st.misses + calls.length) := by
  have percall : ∀ (st : AdapterState C) args kwargs (h : Int),
      keyHash (keyfn args kwargs) = some h →
      ((wrapper ops keyfn func st args kwargs).state.hits = st.hits + 1 ∧
        (wrapper ops keyfn func st args kwargs).state.misses = st.misses) ∨
      ((wrapper ops keyfn func st args kwargs).state.hits = st.hits ∧
        (wrapper ops keyfn func st args kwargs).state.misses = st.misses + 1) := by
    intro st args kwargs h hh
    cases hl : ops.lookup st.cache (keyfn args kwargs) with
    | some v => left; simp [wrapper, hh, hl]
    | none =>
      right
      cases hf : func args kwargs with
      | error e => simp [wrapper, hh, hl, hf]
      | ok r =>
        cases hi : ops.insert st.cache (keyfn args kwargs) r with
        | ok c2 => simp [wrapper, hh, hl, hf, hi]
        | error e => cases e <;> simp [wrapper, hh, hl, hf, hi]
  refine ⟨percall, ?_⟩
  intro st calls
  induction calls generalizing st with
  | nil => intro _; simp [runCalls]
  | cons c rest ih =>
    rcases c with ⟨a, kw⟩
    intro hall
    obtain ⟨h, hh⟩ := hall (a, kw) (List.mem_cons_self _ _)
    have hc := percall st a kw h hh
    have hrest := ih (wrapper ops keyfn func st a kw).state
      (fun c' hc' => hall c' (List.mem_cons_of_mem _ hc'))
    simp only [runCalls, List.length_cons] at hrest ⊢
    rcases hc with ⟨h1, h2⟩ | ⟨h1, h2⟩ <;> omega

/-- Witness for C10: the very first call on an empty FIFO-model container
settles one of the two counters. -/
theorem wrapper_one_counter_witness :
    ((wrapper (fifoModel 2) hashkey (fun _ _ => Except.ok PyVal.noneV)
        ⟨[], 0, 0⟩ [PyVal.intV 1] []).state.hits = 0 + 1 ∧
      (wrapper (fifoModel 2) hashkey (fun _ _ => Except.ok PyVal.noneV)
        ⟨[], 0, 0⟩ [PyVal.intV 1] []).state.misses = 0) ∨
    ((wrapper (fifoModel 2) hashkey (fun _ _ => Except.ok PyVal.noneV)
        ⟨[], 0, 0⟩ [PyVal.intV 1] []).state.hits = 0 ∧
      (wrapper (fifoModel 2) hashkey (fun _ _ => Except.ok PyVal.noneV)
        ⟨[], 0, 0⟩ [PyVal.intV 1] []).state.misses = 0 + 1) :=
  (wrapper_one_counter (fifoModel 2) hashkey (fun _ _ => Except.ok PyVal.noneV)).1
    ⟨[], 0, 0⟩ [PyVal.intV 1] [] _ rfl

/-- After a successful computation the memoized slot answers every further
request with no recomputation. -/
theorem htHashN_memoized (t : HashedTuple) (h : Int) (ht : t.hashvalue = some h) :
    ∀ n : Nat, htHashN t n = (t, 0, List.replicate n (some h)) := by
  intro n
  induction n with
  | zero => rfl
  | succ m ih => simp [htHashN, htHash, ht, ih, List.replicate_succ]

/-- C4: For a hashable `_HashedTuple`, any positive number of hash requests
triggers exactly one underlying hash computation: the first request computes
and stores the value, every later request returns the stored value, and all
requests agree. -/
theorem hashedtuple_hash_once (elems : Key) (h : Int) (n : Nat)
    (hh : keyHash elems = some h) (hn : 1 ≤ n) :
    htHashN ⟨elems, none⟩ n =
      (⟨elems, some h⟩, 1, List.replicate n (some h)) := by
  cases n with
  | zero => cases hn
  | succ m =>
    simp [htHashN, htHash, hh, htHashN_memoized ⟨elems, some h⟩ h rfl m,
      List.replicate_succ]

/-- Witness for C4: two hash requests on a fresh one-element key compute the
hash exactly once. -/
theorem hashedtuple_hash_once_witness :
    htHashN ⟨[KeyElem.val (PyVal.intV 1)], none⟩ 2 =
      (⟨[KeyElem.val (PyVal.intV 1)], some 2166142759408784⟩, 1,
        List.replicate 2 (some 2166142759408784)) :=
  hashedtuple_hash_once _ _ 2 rfl (by decide)

/-- C9: After `cache_clear()`, a `cache_info()` snapshot reports zero hits,
zero misses and zero current size, while `maxsize` keeps its construction
value. -/
theorem cache_clear_resets {C : Type} (ops : ContainerOps C) (maxsize : Nat)
    (st : AdapterState C) :
    cache_info ops maxsize (cache_clear ops st) = ⟨0, 0, maxsize, 0⟩ := by
  simp [cache_info, cache_clear, ops.size_clear]

/-- A purely positional key never equals a key whose tail carries the
`_kwmark` marker: the marker (a class object) equals no argument value. -/
theorem keyEq_map_val_kwmark (xs : List PyVal) :
    ∀ (ys : List PyVal) (zs : Key),
    keyEq (xs.map KeyElem.val) (ys.map KeyElem.val ++ (KeyElem.kwmark :: zs)) = false := by
  induction xs with
  | nil => intro ys zs; cases ys <;> rfl
  | cons x xs ih =>
    intro ys zs
    cases ys with
    | nil => rfl
    | cons y ys => simp [keyEq, ih ys zs]

/-- C5: A key built from positional arguments alone is never equal (Python
`==`) to a key carrying keyword arguments: the `_kwmark` marker injected
ahead of the keyword-derived portion keeps the two shapes collision-free. -/
theorem hashkey_positional_kw_disjoint (p p2 : List PyVal)
    (kw : List (String × PyVal)) (hkw : kw ≠ []) :
    keyEq (hashkey p2 []) (hashkey p kw) = false := by
  have hne : kw.isEmpty = false := by
    cases kw with
    | nil => exact absurd rfl hkw
    | cons q kw' => rfl
  simp only [hashkey, List.isEmpty_nil, if_true, hne, Bool.false_eq_true, if_false]
  exact keyEq_map_val_kwmark p2 p _

/-- Witness for C5: the empty positional key differs from a key with one
keyword argument. -/
theorem hashkey_positional_kw_disjoint_witness :
    keyEq (hashkey [] []) (hashkey [] [("a", PyVal.intV 1)]) = false :=
  hashkey_positional_kw_disjoint [] [] [("a", PyVal.intV 1)] (List.cons_ne_nil _ _)

/-- A keyword list with distinct names sorts strictly by name. -/
theorem sortKwargs_sorted_lt (k : List (String × PyVal))
    (hnd : (k.map Prod.fst).Nodup) : List.Sorted kwLT (sortKwargs k) := by
  have hs : List.Sorted kwLE (sortKwargs k) := List.sorted_insertionSort kwLE k
  have hperm : (sortKwargs k).Perm k := List.perm_insertionSort kwLE k
  have hnd1 : ((sortKwargs k).map Prod.fst).Nodup :=
    ((hperm.map Prod.fst).nodup_iff).mpr hnd
  have hpw : List.Pairwise (fun a b : String × PyVal => a.1 ≠ b.1) (sortKwargs k) :=
    List.pairwise_map.mp hnd1
  exact (hs.and hpw).imp fun h => lt_of_le_of_ne h.1 h.2

/-- Two keyword lists with the same items (distinct names) sort to the same
list. -/
theorem sortKwargs_perm_eq (k1 k2 : List (String × PyVal))
    (hperm : k1.Perm k2) (hnd : (k1.map Prod.fst).Nodup) :
    sortKwargs k1 = sortKwargs k2 := by
  have hnd2 : (k2.map Prod.fst).Nodup := ((hperm.map Prod.fst).nodup_iff).mp hnd
  exact List.eq_of_perm_of_sorted
    ((List.perm_insertionSort kwLE k1).trans
      (hperm.trans (List.perm_insertionSort kwLE k2).symm))
    (sortKwargs_sorted_lt k1 hnd) (sortKwargs_sorted_lt k2 hnd2)

/-- C2: For every positional tuple and any two keyword mappings that are
permutations of the same (distinct-name) key-value pairs, `hashkey` yields
the very same key, and hence equal hash values. -/
theorem hashkey_kwarg_order_invariant (a : List PyVal)
    (k1 k2 : List (String × PyVal)) (hperm : k1.Perm k2)
    (hnd : (k1.map Prod.fst).Nodup) :
    hashkey a k1 = hashkey a k2 ∧
    keyHash (hashkey a k1) = keyHash (hashkey a k2) := by
  have hs := sortKwargs_perm_eq k1 k2 hperm hnd
  have he : hashkey a k1 = hashkey a k2 := by
    cases k1 with
    | nil =>
      have h2 : k2 = [] := hperm.symm.eq_nil
      rw [h2]
    | cons p k1' =>
      cases k2 with
      | nil => exact absurd hperm.eq_nil (List.cons_ne_nil _ _)
      | cons q k2' =>
        simp only [hashkey, List.isEmpty_cons, Bool.false_eq_true, if_false]
        rw [hs]
  exact ⟨he, by rw [he]⟩

/-- Witness for C2: `f(b=2, a=1)` and `f(a=1, b=2)` produce identical keys
with identical hashes. -/
theorem hashkey_kwarg_order_invariant_witness :
    hashkey [PyVal.intV 0] [("b", PyVal.intV 2), ("a", PyVal.intV 1)] =
      hashkey [PyVal.intV 0] [("a", PyVal.intV 1), ("b", PyVal.intV 2)] ∧
    keyHash (hashkey [PyVal.intV 0] [("b", PyVal.intV 2), ("a", PyVal.intV 1)]) =
      keyHash (hashkey [PyVal.intV 0] [("a", PyVal.intV 1), ("b", PyVal.intV 2)]) :=
  hashkey_kwarg_order_invariant [PyVal.intV 0] _ _
    (List.Perm.swap ("a", PyVal.intV 1) ("b", PyVal.intV 2) []) (by decide)

/-- Python `==` on keys distributes over concatenation of equal-length
prefixes. -/
theorem keyEq_append (xs1 : Key) :
    ∀ (xs2 ys1 ys2 : Key), xs1.length = xs2.length →
    keyEq (xs1 ++ ys1) (xs2 ++ ys2) = (keyEq xs1 xs2 && keyEq ys1 ys2) := by
  induction xs1 with
  | nil =>
    intro xs2 ys1 ys2 h
    cases xs2 with
    | nil => simp [keyEq]
    | cons y ys => simp at h
  | cons x xs ih =>
    intro xs2 ys1 ys2 h
    cases xs2 with
    | nil => simp at h
    | cons y ys =>
      simp only [List.cons_append, keyEq, List.append_eq]
      rw [ih ys ys1 ys2 (by simpa using h), Bool.and_assoc]

/-- Pointwise Python-equal argument lists give Python-equal positional
keys. -/
theorem keyEq_map_val_of_forall2 (a1 a2 : List PyVal)
    (h : List.Forall₂ (fun x y => pyEq x y = true) a1 a2) :
    keyEq (a1.map KeyElem.val) (a2.map KeyElem.val) = true := by
  induction h with
  | nil => rfl
  | cons hxy _ ih => simp [keyEq, elemEq, hxy, ih]

/-- If the runtime types differ at some position, the type-prefix blocks of
two typed keys are Python-unequal. -/
theorem keyEq_map_ty_ne (a1 : List PyVal) :
    ∀ (a2 : List PyVal) (i : Nat) (h1 : i < a1.length) (h2 : i < a2.length),
    pyType (a1.get ⟨i, h1⟩) ≠ pyType (a2.get ⟨i, h2⟩) →
    keyEq (a1.map fun v => KeyElem.ty (pyType v))
      (a2.map fun v => KeyElem.ty (pyType v)) = false := by
  induction a1 with
  | nil => intro a2 i h1 _ _; exact absurd h1 (Nat.not_lt_zero i)
  | cons x xs ih =>
    intro a2 i h1 h2 hne
    cases a2 with
    | nil => rfl
    | cons y ys =>
      cases i with
      | zero =>
        have hb : (pyType x == pyType y) = false := beq_eq_false_iff_ne.mpr hne
        simp [keyEq, elemEq, hb]
      | succ j =>
        have hrec := ih ys j (Nat.lt_of_succ_lt_succ h1)
          (Nat.lt_of_succ_lt_succ h2) hne
        simp [keyEq, hrec]

/-- C3: Whenever two positional argument lists are pointwise Python-equal
but differ in some argument's runtime type, `typedkey` produces Python-
unequal keys while `hashkey` produces Python-equal keys. -/
theorem typedkey_distinguishes_types (a1 a2 : List PyVal)
    (hval : List.Forall₂ (fun x y => pyEq x y = true) a1 a2)
    (hty : ∃ i, ∃ (h1 : i < a1.length) (h2 : i < a2.length),
      pyType (a1.get ⟨i, h1⟩) ≠ pyType (a2.get ⟨i, h2⟩)) :
    keyEq (typedkey a1 []) (typedkey a2 []) = false ∧
    keyEq (hashkey a1 []) (hashkey a2 []) = true := by
  have hlen : a1.length = a2.length := hval.length_eq
  have hA : ∀ a : List PyVal, typedkey a [] =
      (a.map fun v => KeyElem.ty (pyType v)) ++ a.map KeyElem.val := by
    intro a
    simp [typedkey, sortKwargs, hashkey]
  refine ⟨?_, ?_⟩
  · obtain ⟨i, h1, h2, hne⟩ := hty
    rw [hA a1, hA a2,
      keyEq_append _ _ _ _ (by simp [hlen]),
      keyEq_map_ty_ne a1 a2 i h1 h2 hne]
    rfl
  · simp only [hashkey, List.isEmpty_nil, if_true]
    exact keyEq_map_val_of_forall2 a1 a2 hval

/-- Witness for C3: `typedkey(1) != typedkey(1.0)` while
`hashkey(1) == hashkey(1.0)`. -/
theorem typedkey_distinguishes_types_witness :
    keyEq (typedkey [PyVal.intV 1] []) (typedkey [PyVal.floatV 1] []) = false ∧
    keyEq (hashkey [PyVal.intV 1] []) (hashkey [PyVal.floatV 1] []) = true :=
  typedkey_distinguishes_types [PyVal.intV 1] [PyVal.floatV 1]
    (List.Forall₂.cons rfl List.Forall₂.nil)
    ⟨0, Nat.zero_lt_one, Nat.zero_lt_one, by decide⟩

end Cachetools
